import Mathlib

/-
Verification of the crawl-checkpoint-and-fan-out pipeline of
`scripts/kalshi_crawl_and_fanout.py` against its natural-language
specification.  Python functions are embedded shallowly: pure helpers become
Lean functions, objects become structures, mutation becomes explicit state
passing, and raised exceptions become `Except` values.  Machine integers do
not occur (Python integers are unbounded); 32-bit arithmetic inside SHA-1 is
modelled on `Nat` with explicit `% 2 ^ 32`.
-/

set_option maxRecDepth 4000

/-- A JSON-ish Python value as it appears in the crawled records: `None`,
a string, or an integer (timestamps may be epoch numbers). -/
inductive Val where
  | vNull
  | vStr (s : String)
  | vInt (n : Int)
deriving Repr, DecidableEq

deriving instance DecidableEq for Except

/-- A record object: an association list of fields, as produced by
`json` decoding of one Kalshi item.  `getField` is Python `o.get(k)`
(first binding wins, absent key gives `None`, i.e. `none` here). -/
def Rec' : Type := List (String × Val)

instance : DecidableEq Rec' := by unfold Rec'; infer_instance

/-- Python `o.get(k)`: `none` models the key being absent. -/
def getField (o : Rec') (k : String) : Option Val :=
  (o.find? (fun p => p.1 = k)).map (fun p => p.2)

/-- Python truthiness of a value (`if o.get(k):`): `None`, the empty string
and `0` are falsy. -/
def truthy : Val → Bool
  | .vNull => false
  | .vStr s => s ≠ ""
  | .vInt n => n ≠ 0

/-- Python `str(v)` as used by `sanitize` on record field values. -/
def pyStr : Val → String
  | .vNull => "None"
  | .vStr s => s
  | .vInt n => toString n

/-- Python `str.lower()` (ASCII reading), as a map over the characters. -/
def pyLower (s : String) : String := String.mk (s.data.map Char.toLower)

/-- The characters Python `str.strip()` removes. -/
def isPyWhitespace (c : Char) : Bool :=
  c = ' ' || c = '\t' || c = '\n' || c = '\r' || c = Char.ofNat 11 || c = Char.ofNat 12

/-- Python `str.strip()`: drop whitespace from both ends. -/
def pyStrip (s : String) : String :=
  String.mk (((s.data.dropWhile isPyWhitespace).reverse.dropWhile isPyWhitespace).reverse)

/-- Characters kept verbatim by `sanitize` (the complement of the pattern
of non-word characters; ASCII reading of regex word characters, plus the
hyphen and dot that the source keeps). -/
def isKeepChar (c : Char) : Bool :=
  c.isAlphanum || c = '_' || c = '-' || c = '.'

/-- Collapse every run of underscores to a single underscore (the second
regex substitution in `sanitize`). -/
def collapseUnd : List Char → List Char
  | [] => []
  | c :: rest =>
    let r := collapseUnd rest
    if c = '_' then
      match r with
      | '_' :: _ => r
      | _ => c :: r
    else c :: r

/-- `sanitize` (line 158): replace each run of characters outside
word/hyphen/dot with one underscore, collapse runs of underscores, truncate
to 180 characters.  Replacing every bad character by an underscore and then
collapsing all underscore runs yields the same string as collapsing runs of
bad characters first. -/
def sanitize (s : String) : String :=
  String.mk ((collapseUnd (s.data.map (fun c => if isKeepChar c then c else '_'))).take 180)

/-- Python salts `hash()` per process, so the `pick_ticker` fallback
`sanitize(abs(hash(json.dumps(o, sort_keys=True))))` is not a deterministic
function of the record across processes.  It is modelled as a fixed
deterministic stand-in; no claim depends on the fallback ticker text. -/
def hashFallbackTicker (_ : Rec') : String := "0"

/-- `pick_ticker` (line 182): first truthy candidate key wins, sanitized;
otherwise the hash fallback. -/
def pick_ticker (o : Rec') : List String → String
  | [] => sanitize (hashFallbackTicker o)
  | k :: ks =>
    match getField o k with
    | some v => if truthy v then sanitize (pyStr v) else pick_ticker o ks
    | none => pick_ticker o ks

/- ----------------------------------------------------------------- -/
/- SHA-1, needed by `_shard2` (line 508).  32-bit words are `Nat` values
reduced `% 2 ^ 32`. -/

def m32 : Nat := 4294967296

def rotl (n x : Nat) : Nat := ((x <<< n) ||| (x >>> (32 - n))) % m32

/-- Merkle-Damgard padding: append 0x80, zero bytes, and the 64-bit
big-endian bit length, to a multiple of 64 bytes. -/
def sha1Pad (msg : List Nat) : List Nat :=
  let len := msg.length
  let bitLen := len * 8
  let padZeros := (55 + 64 - len % 64) % 64
  msg ++ [128] ++ List.replicate padZeros 0 ++
    [(bitLen >>> 56) % 256, (bitLen >>> 48) % 256, (bitLen >>> 40) % 256,
     (bitLen >>> 32) % 256, (bitLen >>> 24) % 256, (bitLen >>> 16) % 256,
     (bitLen >>> 8) % 256, bitLen % 256]

/-- Big-endian 32-bit words from bytes. -/
def bytesToWords : List Nat → List Nat
  | b0 :: b1 :: b2 :: b3 :: rest =>
    (((b0 <<< 24) ||| (b1 <<< 16)) ||| ((b2 <<< 8) ||| b3)) :: bytesToWords rest
  | _ => []

/-- Message-schedule expansion: push `k` more words, each the 1-rotation of
the xor of the words 3, 8, 14 and 16 positions back. -/
def sha1ExpandAux : Nat → Array Nat → Array Nat
  | 0, ws => ws
  | k + 1, ws =>
    let n := ws.size
    let t := rotl 1 ((ws.getD (n - 3) 0 ^^^ ws.getD (n - 8) 0) ^^^
                     (ws.getD (n - 14) 0 ^^^ ws.getD (n - 16) 0))
    sha1ExpandAux k (ws.push t)

structure Sha1St where
  a : Nat
  b : Nat
  c : Nat
  d : Nat
  e : Nat
deriving Repr, DecidableEq

def sha1F (t b c d : Nat) : Nat :=
  if t < 20 then (b &&& c) ||| (((m32 - 1) ^^^ b) &&& d)
  else if t < 40 then (b ^^^ c) ^^^ d
  else if t < 60 then ((b &&& c) ||| (b &&& d)) ||| (c &&& d)
  else (b ^^^ c) ^^^ d

def sha1K (t : Nat) : Nat :=
  if t < 20 then 1518500249
  else if t < 40 then 1859775393
  else if t < 60 then 2400959708
  else 3395469782

def sha1Rounds : Nat → List Nat → Sha1St → Sha1St
  | _, [], st => st
  | t, w :: ws, st =>
    let tmp := (rotl 5 st.a + sha1F t st.b st.c st.d + st.e + sha1K t + w) % m32
    sha1Rounds (t + 1) ws ⟨tmp, st.a, rotl 30 st.b, st.c, st.d⟩

def sha1Init : Sha1St := ⟨1732584193, 4023233417, 2562383102, 271733878, 3285377520⟩

def sha1Block (h : Sha1St) (block : List Nat) : Sha1St :=
  let ws := (sha1ExpandAux 64 (Array.mk (bytesToWords block))).toList
  let r := sha1Rounds 0 ws h
  ⟨(h.a + r.a) % m32, (h.b + r.b) % m32, (h.c + r.c) % m32,
   (h.d + r.d) % m32, (h.e + r.e) % m32⟩

def chunks64 (l : List Nat) : List (List Nat) :=
  if h : l = [] then [] else l.take 64 :: chunks64 (l.drop 64)
termination_by l.length
decreasing_by
  simp [List.length_drop]
  exact List.length_pos.mpr h

def hexDigit (n : Nat) : Char :=
  if n < 10 then Char.ofNat (48 + n) else Char.ofNat (87 + n)

def hex8 (x : Nat) : List Char :=
  (List.range 8).map (fun i => hexDigit ((x >>> ((7 - i) * 4)) % 16))

/-- UTF-8 encoding of one character. -/
def utf8EncodeChar (c : Char) : List Nat :=
  let n := c.toNat
  if n < 128 then [n]
  else if n < 2048 then [192 + n / 64, 128 + n % 64]
  else if n < 65536 then [224 + n / 4096, 128 + n / 64 % 64, 128 + n % 64]
  else [240 + n / 262144, 128 + n / 4096 % 64, 128 + n / 64 % 64, 128 + n % 64]

/-- The UTF-8 bytes of a string (`s.encode("utf-8")`). -/
def utf8Bytes (s : String) : List Nat :=
  (s.data.map utf8EncodeChar).flatten

/-- `hashlib.sha1(x).hexdigest()`. -/
def sha1Hex (msg : List Nat) : String :=
  let h := (chunks64 (sha1Pad msg)).foldl sha1Block sha1Init
  String.mk (hex8 h.a ++ hex8 h.b ++ hex8 h.c ++ hex8 h.d ++ hex8 h.e)

/-- `_shard2` (line 508): 2-hex-character shard from the SHA-1 of the
sanitized string; `"00"` for the empty sanitized string. -/
def _shard2 (s : String) : String :=
  let s2 := sanitize s
  if s2 = "" then "00" else String.mk ((sha1Hex (utf8Bytes s2)).data.take 2)

/- ----------------------------------------------------------------- -/
/- Time-bucketing helpers. -/

/-- The value a successful datetime parse would carry.  Only year and month
reach the routed path. -/
structure PyDateTime where
  year : Nat
  month : Nat
deriving Repr, DecidableEq

/-- Regex fullmatch of `\d{4}-\d{2}-\d{2}`. -/
def isDateOnly (s : String) : Bool :=
  match s.data with
  | [a, b, c, d, h1, e, f, h2, g, h] =>
    a.isDigit && b.isDigit && c.isDigit && d.isDigit && h1 = '-' &&
    e.isDigit && f.isDigit && h2 = '-' && g.isDigit && h.isDigit
  | _ => false

/-- `_dt_from_any` (line 449).  The docstring promises best-effort parsing of
ISO 8601 strings, date-only strings and epoch numbers, but the file only does
`import datetime`, so inside this function `datetime` denotes the MODULE:
`datetime.fromtimestamp`, `datetime.strptime` and `datetime.fromisoformat`
raise AttributeError (the module has no such attributes) and `timezone` is an
unbound name.  Every such raise is swallowed by the surrounding
`except Exception` handlers, so every branch returns `None`:

* numeric input (line 461-465): `datetime.fromtimestamp(...)` raises, caught
  by the outer handler at line 485;
* date-only string (line 473-474): `datetime.strptime(...)` raises, caught by
  the outer handler;
* other strings (line 477-484): `datetime.fromisoformat(...)` raises, caught
  by the inner handler at line 483.

The branch structure of the source is kept so that each returned `none` can
be traced to the handler that produces it. -/
def _dt_from_any (v : Val) : Option PyDateTime :=
  match v with
  | .vNull => none
  | .vInt _ => none
  | .vStr s0 =>
    let s := pyStrip s0
    if s = "" then none
    else if isDateOnly s then none
    else none

/-- `_best_dt` (line 489, the later of the two definitions of this name in
the file, which is the one in effect at call time): first candidate key that
is present, not `None`, not the empty string, and parses. -/
def _best_dt (o : Rec') : List String → Option PyDateTime
  | [] => none
  | k :: ks =>
    let present := o.any (fun p => p.1 = k)
    let v := getField o k
    if present && !(v = some Val.vNull || v = none || v = some (Val.vStr "")) then
      match _dt_from_any (v.getD .vNull) with
      | some dt => some dt
      | none => _best_dt o ks
    else _best_dt o ks

/-- `_ym_from_dt` (line 502). -/
def _ym_from_dt : Option PyDateTime → String × String
  | none => ("unknown", "unknown")
  | some dt =>
    (String.mk (List.replicate (4 - (toString dt.year).length) '0') ++ toString dt.year,
     String.mk (List.replicate (2 - (toString dt.month).length) '0') ++ toString dt.month)

/-- `OPEN_STATUSES` (line 380). -/
def OPEN_STATUSES : List String := ["open", "active", "trading", "live"]

/-- Exceptions that the embedded code can raise. -/
inductive PyExc where
  | nameError (n : String)
  | attributeError (n : String)
  | typeErrorCall (n : String)
  | indexError
  | rolloverRequested
deriving Repr, DecidableEq

/-- Python `(o.get("status") or "")`: absent, `None`, `""`, and `0` collapse
to the empty string. -/
def statusOrEmpty (o : Rec') : Val :=
  match getField o "status" with
  | none => .vStr ""
  | some v => if truthy v then v else .vStr ""

/-- Python `.lower()` on the status value: defined for strings; a truthy
non-string (an integer) has no `.lower()` and raises AttributeError. -/
def valLower : Val → Except PyExc String
  | .vStr s => .ok (pyLower s)
  | v => if truthy v then .error (.attributeError "lower") else .ok ""

/-- `events_relpath` (line 395): list of path components of
`events/<open|closed>/<y>/<m>/<shard>/<ticker>.json`. -/
def events_relpath (o : Rec') : Except PyExc (List String) :=
  match valLower (statusOrEmpty o) with
  | .error e => .error e
  | .ok status =>
    let t := pick_ticker o ["ticker", "event_ticker", "id"]
    let dt := _best_dt o ["strike_date", "close_time", "expiration_time",
                          "settlement_time", "created_time", "created_at",
                          "updated_time", "updated_at"]
    let ym := _ym_from_dt dt
    let p2 := _shard2 t
    if status ∈ OPEN_STATUSES then
      .ok ["events", "open", ym.1, ym.2, p2, t ++ ".json"]
    else
      .ok ["events", "closed", ym.1, ym.2, p2, t ++ ".json"]

/-- `markets_relpath` (line 421). -/
def markets_relpath (o : Rec') : Except PyExc (List String) :=
  match valLower (statusOrEmpty o) with
  | .error e => .error e
  | .ok status =>
    let t := pick_ticker o ["ticker", "market_ticker", "id"]
    let dt := _best_dt o ["close_time", "expiration_time", "settlement_time",
                          "created_time", "created_at", "updated_time",
                          "updated_at", "strike_date"]
    let ym := _ym_from_dt dt
    let p2 := _shard2 t
    if status = "open" then
      .ok ["markets", "open", ym.1, ym.2, p2, t ++ ".json"]
    else
      .ok ["markets", "closed", ym.1, ym.2, p2, t ++ ".json"]

/-- Lifecycle partition component (index 1) of the routed events path. -/
def eventsPartition (o : Rec') : Except PyExc (Option String) :=
  (events_relpath o).map (fun l => l.get? 1)

/-- Lifecycle partition component (index 1) of the routed markets path. -/
def marketsPartition (o : Rec') : Except PyExc (Option String) :=
  (markets_relpath o).map (fun l => l.get? 1)

/-- Time-bucket components (index 2 and 3) of the routed markets path. -/
def marketsBucket (o : Rec') : Except PyExc (Option String × Option String) :=
  (markets_relpath o).map (fun l => (l.get? 2, l.get? 3))

/-- Time-bucket components (index 2 and 3) of the routed events path. -/
def eventsBucket (o : Rec') : Except PyExc (Option String × Option String) :=
  (events_relpath o).map (fun l => (l.get? 2, l.get? 3))

/- ----------------------------------------------------------------- -/
/- Rollover tracker (lines 257-287). -/

/-- The `targets` document fields the tracker reads.  `repoPrefix` embeds the
source key `repo_prefix`. -/
structure Targets where
  owner : String
  series_repo : String
  repoPrefix : String
deriving Repr, DecidableEq

/-- `state["rollover"]`: the persisted map from `kind:scope` keys to current
rollover indices.  Values are `Int` because the source passes them through
Python `int(...)`, which is unbounded and signed. -/
structure RolloverTable where
  entries : List (String × Int)
deriving Repr, DecidableEq

/-- `RepoRolloverTracker._key` (line 270). -/
def rkey (kind scope : String) : String := kind ++ ":" ++ scope

/-- Dict lookup with default 1, as in `self.state["rollover"].get(k, 1)`. -/
def RolloverTable.getIdx (t : RolloverTable) (key : String) : Int :=
  ((t.entries.find? (fun p => p.1 = key)).map (fun p => p.2)).getD 1

/-- Dict assignment `self.state["rollover"][k] = i`. -/
def RolloverTable.setIdx (t : RolloverTable) (key : String) (v : Int) : RolloverTable :=
  ⟨(key, v) :: t.entries.filter (fun p => p.1 ≠ key)⟩

/-- `RepoRolloverTracker.index` (line 273). -/
def RepoRolloverTracker.index (t : RolloverTable) (kind scope : String) : Int :=
  t.getIdx (rkey kind scope)

/-- `RepoRolloverTracker.bump` (line 276): read with default 1, add one,
store; returns the new index and the updated table. -/
def RepoRolloverTracker.bump (t : RolloverTable) (kind scope : String) : Int × RolloverTable :=
  let k := rkey kind scope
  let i := t.getIdx k + 1
  (i, t.setIdx k i)

/-- Python `f"{i:03d}"`: decimal form of `i`, zero-padded on the left to a
total width of three (the sign occupies one column for negative values). -/
def padThree (i : Int) : String :=
  let core := toString i.natAbs
  if i < 0 then "-" ++ String.mk (List.replicate (2 - core.length) '0') ++ core
  else String.mk (List.replicate (3 - core.length) '0') ++ core

/-- `RepoRolloverTracker.repo` (line 282): the singleton series repo for the
`Series` kind or scope, otherwise prefix, kind, scope and the zero-padded
current index. -/
def RepoRolloverTracker.repo (targets : Targets) (t : RolloverTable) (kind scope : String) : String :=
  if kind = "Series" || scope = "Series" then targets.series_repo
  else targets.repoPrefix ++ "_" ++ kind ++ "_" ++ scope ++ "_" ++
       padThree (RepoRolloverTracker.index t kind scope)

/-- Rollover tables reachable in a run: the fresh table installed by
`setdefault("rollover", emptyDict)` on first use, closed under `bump` (the
only operation in the file that writes to the table). -/
inductive RolloverReachable : RolloverTable → Prop
  | init : RolloverReachable ⟨[]⟩
  | step (kind scope : String) {t : RolloverTable} :
      RolloverReachable t → RolloverReachable (RepoRolloverTracker.bump t kind scope).2

/- ----------------------------------------------------------------- -/
/- Configuration constants (lines 48-56), at their source defaults. -/

def COMMIT_EVERY_FILES : Nat := 5000
def MAX_OPEN_REPOS : Nat := 3
def MAX_BYTES_PER_REPO : Nat := 3000000000
def MAX_FILES_PER_REPO : Nat := 250000

/- ----------------------------------------------------------------- -/
/- RepoWriter (lines 626-717). -/

/-- One open working copy of one sink repo.  `worktree_removed` is a ghost
flag recording that `close` deleted the local worktree.  The constructor also
receives the tracker, which the writer stores but never consults; the field
is omitted.  Note the class has no byte counter of any kind: the only growth
counters are `files_written`, `last_flush_files` and the pending path list. -/
structure RepoWriter where
  owner : String
  repo : String
  local_path : String
  files_written : Nat
  last_flush_files : Nat
  opened : Bool
  pending_paths : List String
  has_counts_file : Bool
  worktree_removed : Bool
deriving Repr, DecidableEq

/-- `RepoWriter.open` (line 639) as written: on a writer not yet opened it
calls `ensure_local_repo`, a name defined nowhere in the file, so the call
raises NameError. -/
def RepoWriter.openSrc (w : RepoWriter) : Except PyExc RepoWriter :=
  if w.opened then .ok w else .error (.nameError "ensure_local_repo")

/-- Modelled from the spec: `ensure_local_repo` is missing from src (only its
caller `RepoWriter.open` appears).  Per spec section 4.2/6 the SinkBackend
open is idempotent and succeeds, leaving a fresh working copy. -/
def RepoWriter.openModelled (w : RepoWriter) : RepoWriter := { w with opened := true }

/-- Keep-first deduplication, as the `seen`-set loop at lines 668-673. -/
def dedupKeepFirst : List String → List String
  | [] => []
  | x :: xs => x :: dedupKeepFirst (xs.filter (fun y => y ≠ x))
termination_by l => l.length
decreasing_by
  exact Nat.lt_succ_of_le (List.length_filter_le _ _)

/-- `RepoWriter.write_json` (line 645): open (spec-modelled success), write
the serialized record under `relpath` in the working copy, count it, record
the pending path.  The working-copy file contents are not modelled; the
commit ledger of `maybe_flush` captures what reaches the durable sink. -/
def RepoWriter.write_json (w : RepoWriter) (relpath : String) : RepoWriter :=
  let w1 := w.openModelled
  { w1 with files_written := w1.files_written + 1,
            pending_paths := w1.pending_paths ++ [relpath] }

/-- `RepoWriter.maybe_flush` (line 654).  Returns the updated writer and the
list of paths committed to the sink by this call (empty when nothing was
committed).  `git_commit_push_if_changed` is the SinkBackend commit of the
spec, modelled as staging exactly the named paths and committing when some
path was staged.  The body contains no raise statement: it never raises
`RolloverRequested`, and it reads neither `MAX_FILES_PER_REPO` nor
`MAX_BYTES_PER_REPO` (those constants are read nowhere in the file). -/
def RepoWriter.maybe_flush (w : RepoWriter) (force : Bool) :
    Except PyExc (RepoWriter × List String) :=
  if !w.opened then .ok (w, [])
  else if !force && w.pending_paths.length < COMMIT_EVERY_FILES then .ok (w, [])
  else
    let withCounts :=
      if w.has_counts_file then w.pending_paths ++ ["KALSHI_COUNTS.json"]
      else w.pending_paths
    let unique := dedupKeepFirst withCounts
    .ok ({ w with last_flush_files := w.files_written, pending_paths := [] }, unique)

/-- `RepoWriter.close` (line 709): force-flush, then (in the `finally`)
delete the local worktree. -/
def RepoWriter.close (w : RepoWriter) : Except PyExc (RepoWriter × List String) :=
  match w.maybe_flush true with
  | .ok (w1, c) => .ok ({ w1 with worktree_removed := true }, c)
  | .error e => .error e

theorem maybe_flush_isOk (w : RepoWriter) (force : Bool) :
    ∃ r, w.maybe_flush force = .ok r := by
  unfold RepoWriter.maybe_flush
  split
  · exact ⟨_, rfl⟩
  · split
    · exact ⟨_, rfl⟩
    · exact ⟨_, rfl⟩

theorem close_isOk (w : RepoWriter) : ∃ r, w.close = .ok r := by
  obtain ⟨r, hr⟩ := maybe_flush_isOk w true
  refine ⟨({ r.1 with worktree_removed := true }, r.2), ?_⟩
  simp [RepoWriter.close, hr]

/- ----------------------------------------------------------------- -/
/- WriterManager (lines 718-772). -/

/-- The pool of open writers: `writers` embeds the dict (association list,
first binding wins), `open_order` the LRU list (front = least recently
used). -/
structure WriterManager where
  owner : String
  max_open_repos : Nat
  writers : List (String × RepoWriter)
  open_order : List String
deriving Repr, DecidableEq

def WriterManager.findWriter (m : WriterManager) (repo : String) : Option RepoWriter :=
  (m.writers.find? (fun p => p.1 = repo)).map (fun p => p.2)

def WriterManager.updateWriter (m : WriterManager) (repo : String) (w : RepoWriter) :
    WriterManager :=
  { m with writers := m.writers.map (fun p => if p.1 = repo then (repo, w) else p) }

/-- The eviction loop of `get` (lines 737-742): while the pool is at or over
budget, pop the least recently used repo from the front of `open_order`,
remove its writer from the dict and close it.  Returns the remaining order,
the remaining writers, and the closed writers in eviction order (the ghost
trace the pool-bound claims inspect).  With a zero budget and an exhausted
order Python would `pop(0)` from an empty list, raising IndexError. -/
def evictLoop (maxOpen : Nat) : List String → List (String × RepoWriter) →
    Except PyExc (List String × List (String × RepoWriter) × List (String × RepoWriter))
  | [], ws =>
    if maxOpen = 0 then .error .indexError else .ok ([], ws, [])
  | r :: rest, ws =>
    if maxOpen ≤ (r :: rest).length then
      match (ws.find? (fun p => p.1 = r)).map (fun p => p.2) with
      | some w =>
        match w.close with
        | .ok (wc, _) =>
          match evictLoop maxOpen rest (ws.filter (fun p => p.1 ≠ r)) with
          | .ok (o2, ws2, ev2) => .ok (o2, ws2, (r, wc) :: ev2)
          | .error e => .error e
        | .error e => .error e
      | none =>
        evictLoop maxOpen rest (ws.filter (fun p => p.1 ≠ r))
    else .ok (r :: rest, ws, [])

/-- `WriterManager.get` (line 728) as written.  On a repo already open:
touch the LRU order and return its writer.  On any other repo: run the
eviction loop, then evaluate `os.path.join(WORK_REPOS_DIR, repo)`;
`WORK_REPOS_DIR` is defined nowhere in the file (the configuration block
defines `REPOS_DIR`), so the open path raises NameError before any writer is
constructed or registered.  The error carries the manager state after the
evictions already performed. -/
def WriterManager.get (m : WriterManager) (repo : String) :
    Except (PyExc × WriterManager) (WriterManager × RepoWriter) :=
  match m.findWriter repo with
  | some w =>
    let ord := if m.open_order.contains repo then m.open_order.erase repo else m.open_order
    .ok ({ m with open_order := ord ++ [repo] }, w)
  | none =>
    match evictLoop m.max_open_repos m.open_order m.writers with
    | .ok (o2, ws2, _) =>
      .error (.nameError "WORK_REPOS_DIR", { m with open_order := o2, writers := ws2 })
    | .error e => .error (e, m)

/-- Modelled from the spec: `WriterManager.get` with the missing open path
completed.  `WORK_REPOS_DIR` and `ensure_local_repo` are missing from src
(only their use sites at lines 744 and 642 appear); per spec sections 4.3 and
6 the pool opens a writer for an absent sink after evicting down to budget,
with the working copy under the configured repos directory.  Returns the
updated pool, the writer handed to the caller, and the eviction trace. -/
def WriterManager.getModelled (m : WriterManager) (repo : String) :
    Except PyExc (WriterManager × RepoWriter × List (String × RepoWriter)) :=
  match m.findWriter repo with
  | some w =>
    let ord := if m.open_order.contains repo then m.open_order.erase repo else m.open_order
    .ok ({ m with open_order := ord ++ [repo] }, w, [])
  | none =>
    match evictLoop m.max_open_repos m.open_order m.writers with
    | .ok (o2, ws2, ev) =>
      let w : RepoWriter :=
        { owner := m.owner, repo := repo, local_path := ".work/repos/" ++ repo,
          files_written := 0, last_flush_files := 0, opened := true,
          pending_paths := [], has_counts_file := false, worktree_removed := false }
      .ok ({ m with open_order := o2 ++ [repo], writers := ws2 ++ [(repo, w)] }, w, ev)
    | .error e => .error e

/-- `WriterManager.flush_all` (line 752): iterate over a snapshot of
`open_order`, force-flush every writer; the `except RolloverRequested`
handler closes and removes the writer (kept although `maybe_flush` never
raises that signal). -/
def WriterManager.flushAllAux : List String → WriterManager → Except PyExc WriterManager
  | [], m => .ok m
  | repo :: rest, m =>
    match m.findWriter repo with
    | none => WriterManager.flushAllAux rest m
    | some w =>
      match w.maybe_flush true with
      | .ok (w1, _) => WriterManager.flushAllAux rest (m.updateWriter repo w1)
      | .error .rolloverRequested =>
        match w.close with
        | .ok _ =>
          WriterManager.flushAllAux rest
            { m with writers := m.writers.filter (fun p => p.1 ≠ repo),
                     open_order := m.open_order.erase repo }
        | .error e => .error e
      | .error e => .error e

def WriterManager.flush_all (m : WriterManager) : Except PyExc WriterManager :=
  WriterManager.flushAllAux m.open_order m

/-- `close_all` (line 765).  In the source, `def close_all(self):` starts at
column 0: the function is DEDENTED to module level, so it is a plain module
function and WriterManager instances have no `close_all` attribute.  Its body
is the intended shutdown: close every writer in `open_order`, then clear both
containers. -/
def closeAllAux : List String → WriterManager → Except PyExc WriterManager
  | [], m => .ok m
  | repo :: rest, m =>
    match m.findWriter repo with
    | none => closeAllAux rest m
    | some w =>
      match w.close with
      | .ok (w1, _) => closeAllAux rest (m.updateWriter repo w1)
      | .error e => .error e

def close_all (m : WriterManager) : Except PyExc WriterManager :=
  match closeAllAux m.open_order m with
  | .ok m1 => .ok { m1 with writers := [], open_order := [] }
  | .error e => .error e

/-- The attribute names bound by the body of `class WriterManager`
(lines 718-763): `__init__`, `get` and `flush_all`.  `close_all` is not among
them because line 765 is dedented out of the class. -/
def writerManagerClassAttrs : List String := ["__init__", "get", "flush_all"]

/-- A zero-argument method call `wm.<name>()` on a WriterManager instance, as
the `finally` block of `main` (line 910) performs with name `close_all`:
`flush_all` is the only zero-argument method; `get` and `__init__` exist but
require arguments (TypeError when called without); any other name raises
AttributeError. -/
def wmCallNoArg (m : WriterManager) (name : String) : Except PyExc WriterManager :=
  if name = "flush_all" then m.flush_all
  else if name ∈ writerManagerClassAttrs then .error (.typeErrorCall name)
  else .error (.attributeError name)

/- ----------------------------------------------------------------- -/
/- Orchestration model for the checkpoint-ordering and cursor claims
(C1, C8).  A record is represented by its routed destination - the sink repo
the router chose and the relative path inside it - the only attributes of a
record that the checkpoint ordering can observe (path routing itself is
`events_relpath`/`markets_relpath` above; the repo resolution
`target_repo_for_relpath` is referenced at line 861 but defined nowhere in
src). -/

structure Routed where
  repo : String
  rel : String
deriving Repr, DecidableEq

/-- One `save_state` call in the ghost trace: the persisted snapshot, and
the committed and yielded record sets at the moment of the save. -/
structure SaveEntry (σ : Type) where
  snapshot : σ
  committedAtSave : List Routed
  yieldedAtSave : List Routed
deriving Repr, DecidableEq

/-- Ghost ledger of the pipeline: all records yielded so far, the records
written to working copies but not yet committed, the records committed to
sinks, and the trace of `save_state` calls. -/
structure Ledger (σ : Type) where
  yielded : List Routed
  pending : List Routed
  committed : List Routed
  saves : List (SaveEntry σ)
deriving Repr, DecidableEq

def emptyLedger (σ : Type) : Ledger σ := ⟨[], [], [], []⟩

/-- `yield_item` (line 859) at the granularity the checkpoint claims need:
the record is written into the working copy of its repo (pending), then the
writer runs `maybe_flush(False)`, which commits the pending records of that
repo exactly when they number at least the `COMMIT_EVERY_FILES` threshold.
Pool eviction (which also force-flushes, adding commits) does not occur in
the runs the theorems below evaluate; the rollover handler is unreachable
(theorem for C2). -/
def pipeYield {σ : Type} (threshold : Nat) (led : Ledger σ) (x : Routed) : Ledger σ :=
  let pending1 := led.pending ++ [x]
  let mine := pending1.filter (fun y => y.repo = x.repo)
  if threshold ≤ mine.length then
    { led with yielded := led.yielded ++ [x],
               pending := pending1.filter (fun y => y.repo ≠ x.repo),
               committed := led.committed ++ mine }
  else
    { led with yielded := led.yielded ++ [x], pending := pending1 }

/-- `save_state(state)` in the ghost trace. -/
def pipeSave {σ : Type} (led : Ledger σ) (st : σ) : Ledger σ :=
  { led with saves := led.saves ++ [⟨st, led.committed, led.yielded⟩] }

/-- `wm.flush_all()` in the ghost trace: every pending record is committed. -/
def pipeFlushAll {σ : Type} (led : Ledger σ) : Ledger σ :=
  { led with pending := [], committed := led.committed ++ led.pending }

/-- The per-category fields of the state that `crawl_events_full` reads and
writes. -/
structure EvState where
  events_cursor : Option String
  events_page : Int
  events_total : Int
deriving Repr, DecidableEq

/-- Python falsiness of a cursor value (`if not cursor`): absent or empty. -/
def cursorFalsy : Option String → Bool
  | none => true
  | some s => s = ""

/-- One `/events` response: the routed records of `data.get("events", [])`
and `data.get("cursor")`. -/
structure Page where
  items : List Routed
  next_cursor : Option String
deriving Repr, DecidableEq

/-- `crawl_events_full` (line 783) over the (finite) sequence of source
responses; `none` when the list is exhausted before the loop breaks (the
theorems only speak about completed loops).  Mirrors the loop body: break on
an empty page with a falsy cursor; otherwise yield every item, advance
cursor/page/total, `save_state`; break when the new cursor is falsy; after
the loop clear the cursor and save once more (lines 800-801). -/
def crawl_events_full (threshold : Nat) :
    List Page → EvState → Ledger EvState → Option (EvState × Ledger EvState)
  | [], _, _ => none
  | p :: rest, st, led =>
    if p.items.isEmpty && cursorFalsy p.next_cursor then
      let st1 := { st with events_cursor := none }
      some (st1, pipeSave led st1)
    else
      let led1 := p.items.foldl (pipeYield threshold) led
      let st1 : EvState := { events_cursor := p.next_cursor,
                             events_page := st.events_page + 1,
                             events_total := st.events_total + p.items.length }
      let led2 := pipeSave led1 st1
      if cursorFalsy p.next_cursor then
        let st2 := { st1 with events_cursor := none }
        some (st2, pipeSave led2 st2)
      else crawl_events_full threshold rest st1 led2

/-- The per-category fields of the state that `crawl_markets_full` reads and
writes. -/
structure MkState where
  markets_cursor : Option String
  markets_page : Int
  markets_total : Int
  last_market_updated_ts : Int
deriving Repr, DecidableEq

/-- One `/markets` response: each routed record together with
`iso_to_unix_seconds(o.get("updated_time"))` - that helper parses through
`datetime.datetime.fromisoformat`, which does work, so the model takes the
parse result with the item. -/
structure MPage where
  items : List (Routed × Option Int)
  next_cursor : Option String
deriving Repr, DecidableEq

/-- Lines 817-818: `if u and u > max_seen_updated: max_seen_updated = u`
(`u` of zero is falsy and ignored). -/
def mkMaxUpd (maxSeen : Int) : Option Int → Int
  | none => maxSeen
  | some u => if u ≠ 0 ∧ maxSeen < u then u else maxSeen

/-- `crawl_markets_full` (line 803), analogous to `crawl_events_full`; after
the loop it clears the cursor and rewrites `last_market_updated_ts` as
`max_seen_updated or int(NOW_UTC.timestamp())` (lines 824-826). -/
def crawl_markets_full (threshold : Nat) (now : Int) :
    List MPage → MkState → Ledger MkState → Option (MkState × Ledger MkState)
  | [], _, _ => none
  | p :: rest, st, led =>
    if p.items.isEmpty && cursorFalsy p.next_cursor then
      let maxSeen := st.last_market_updated_ts
      let st1 := { st with markets_cursor := none,
                           last_market_updated_ts := if maxSeen ≠ 0 then maxSeen else now }
      some (st1, pipeSave led st1)
    else
      let led1 := (p.items.map Prod.fst).foldl (pipeYield threshold) led
      let maxSeen := (p.items.map Prod.snd).foldl mkMaxUpd st.last_market_updated_ts
      let st1 : MkState := { markets_cursor := p.next_cursor,
                             markets_page := st.markets_page + 1,
                             markets_total := st.markets_total + p.items.length,
                             last_market_updated_ts := maxSeen }
      let led2 := pipeSave led1 st1
      if cursorFalsy p.next_cursor then
        let st2 := { st1 with markets_cursor := none,
                              last_market_updated_ts := if maxSeen ≠ 0 then maxSeen else now }
        some (st2, pipeSave led2 st2)
      else crawl_markets_full threshold now rest st1 led2

/-- The success path of `main` for the events phase followed by the final
checkpoint (lines 896-899): after the crawl returns, `main` calls
`wm.flush_all()` and then `save_state(state)` (the flag fields that line 899
also sets are not part of `EvState`). -/
def mainEventsSuccess (threshold : Nat) (pages : List Page) (st : EvState)
    (led : Ledger EvState) : Option (EvState × Ledger EvState) :=
  match crawl_events_full threshold pages st led with
  | none => none
  | some (st1, led1) => some (st1, pipeSave (pipeFlushAll led1) st1)

/-- Ledger well-formedness: every yielded record is committed or pending. -/
def LedgerInv {σ : Type} (led : Ledger σ) : Prop :=
  ∀ x, x ∈ led.yielded ↔ (x ∈ led.committed ∨ x ∈ led.pending)

/-- The checkpoint-ordering property claim C1 asserts of every persisted
state: at the moment of each `save_state`, every record yielded so far has
already been committed to some sink. -/
def CheckpointCoverage {σ : Type} (led : Ledger σ) : Prop :=
  ∀ sv ∈ led.saves, ∀ x ∈ sv.yieldedAtSave, x ∈ sv.committedAtSave

/- ----------------------------------------------------------------- -/
/- Checkpoint store model (C9): `atomic_write_json` (line 200),
`load_state` (line 212), `save_state` (line 227). -/

/-- JSON documents as stored in the state file. -/
inductive J where
  | jNull
  | jStr (s : String)
  | jInt (n : Int)
  | jBool (b : Bool)
  | jObj (fields : List (String × J))

/-- Contents of one file: either the complete serialization of a document,
or an in-progress write of it (the file exists but holds only a prefix of
the serialization). -/
inductive FileData where
  | full (d : J)
  | inProgress (d : J)

/-- The observable filesystem: paths to file contents. -/
def FS : Type := List (String × FileData)

def fsGet (fs : FS) (path : String) : Option FileData :=
  ((fs.find? (fun p => p.1 = path)).map (fun p => p.2))

def fsSet (fs : FS) (path : String) (d : FileData) : FS :=
  (path, d) :: fs.filter (fun p => p.1 ≠ path)

def fsRemove (fs : FS) (path : String) : FS :=
  fs.filter (fun p => p.1 ≠ path)

/-- `atomic_write_json` (line 200) as the sequence of observable filesystem
states: initial; temp file created and partially written; temp file
completely written; temp file renamed over the target (`Path.replace` is an
atomic rename).  For the JSON state files this function is used on,
`path.with_suffix(path.suffix + ".tmp")` appends `.tmp` to the name. -/
def atomic_write_json_trace (fs : FS) (path : String) (doc : J) : List FS :=
  let tmp := path ++ ".tmp"
  [fs,
   fsSet fs tmp (.inProgress doc),
   fsSet fs tmp (.full doc),
   fsSet (fsRemove (fsSet fs tmp (.full doc)) tmp) path (.full doc)]

/-- The filesystem after `atomic_write_json` completes. -/
def atomic_write_json (fs : FS) (path : String) (doc : J) : FS :=
  fsSet (fsRemove (fsSet fs (path ++ ".tmp") (.full doc)) (path ++ ".tmp")) path (.full doc)

def STATE_FILE : String := ".state/kalshi_state.json"

/-- The defaults `load_state` returns when no state file exists
(lines 215-225). -/
def defaultState : List (String × J) :=
  [("last_run_ts", .jNull), ("last_market_updated_ts", .jNull),
   ("first_full_done", .jBool false), ("events_cursor", .jNull),
   ("events_page", .jInt 0), ("events_total", .jInt 0),
   ("markets_cursor", .jNull), ("markets_page", .jInt 0),
   ("markets_total", .jInt 0)]

/-- `load_state` (line 212): parse the state file when it exists, else the
defaults.  A file holding an incomplete serialization does not parse
(`json.load` raises); that case yields `none`. -/
def load_state (fs : FS) : Option J :=
  match fsGet fs STATE_FILE with
  | some (.full d) => some d
  | some (.inProgress _) => none
  | none => some (.jObj defaultState)

/-- Dict assignment `state["last_success_utc"] = ...` on the copied dict. -/
def jSet (fields : List (String × J)) (k : String) (v : J) : List (String × J) :=
  (k, v) :: fields.filter (fun p => p.1 ≠ k)

/-- `save_state` (line 227): copy the state dict, stamp
`last_success_utc`, and atomically write it to the state file. -/
def save_state (fs : FS) (state : List (String × J)) (nowIso : String) : FS :=
  atomic_write_json fs STATE_FILE (.jObj (jSet state "last_success_utc" (.jStr nowIso)))

/-- The document `save_state` persists. -/
def savedStateDoc (state : List (String × J)) (nowIso : String) : J :=
  .jObj (jSet state "last_success_utc" (.jStr nowIso))

/- ----------------------------------------------------------------- -/
/- Theorems. -/

/- C4: lifecycle partition of ambiguous status. -/

theorem open_mem_OPEN_STATUSES : "open" ∈ OPEN_STATUSES := by decide

/-- C4 (amended): for every record whose `status` field resolves to a string
that is not a recognized open status, routing places the record in the
CLOSED partition of its category path, for events and for markets alike; the
default lifecycle partition for ambiguous or missing status is closed. -/
theorem c4_unrecognized_status_routes_closed (o : Rec') (s : String)
    (hs : valLower (statusOrEmpty o) = .ok s) (h1 : s ∉ OPEN_STATUSES) :
    eventsPartition o = .ok (some "closed") ∧ marketsPartition o = .ok (some "closed") := by
  have hopen : s ≠ "open" := fun h => h1 (h ▸ open_mem_OPEN_STATUSES)
  constructor
  · unfold eventsPartition events_relpath
    rw [hs]
    simp only [if_neg h1]
    rfl
  · unfold marketsPartition markets_relpath
    rw [hs]
    simp only [if_neg hopen]
    rfl

/-- C4 witness: a concrete record with the unrecognized status `Settled`
lands in the closed partition on both category paths. -/
theorem c4_witness :
    valLower (statusOrEmpty [("status", Val.vStr "Settled"), ("ticker", Val.vStr "X")]) =
      .ok "settled" ∧
    "settled" ∉ OPEN_STATUSES ∧
    eventsPartition [("status", Val.vStr "Settled"), ("ticker", Val.vStr "X")] =
      .ok (some "closed") ∧
    marketsPartition [("status", Val.vStr "Settled"), ("ticker", Val.vStr "X")] =
      .ok (some "closed") := by
  refine ⟨by decide, by decide, ?_, ?_⟩
  · exact (c4_unrecognized_status_routes_closed _ "settled" (by decide) (by decide)).1
  · exact (c4_unrecognized_status_routes_closed _ "settled" (by decide) (by decide)).2

/-- C4 counterexample: a record with no status field at all is routed to
`events/closed/...`, not to the open partition the claim asserts. -/
theorem c4_counterexample :
    eventsPartition [("ticker", Val.vStr "DEMO")] = .ok (some "closed") ∧
    eventsPartition [("ticker", Val.vStr "DEMO")] ≠ .ok (some "open") := by
  have h1 : eventsPartition [("ticker", Val.vStr "DEMO")] = .ok (some "closed") := by rfl
  refine ⟨h1, ?_⟩
  rw [h1]
  decide

/- C5: time bucket derivation. -/

def c5Rec : Rec' :=
  [("ticker", Val.vStr "AB"), ("status", Val.vStr "open"),
   ("close_time", Val.vStr "2024-05-01T12:00:00Z")]

/-- C5: `_dt_from_any` returns `None` for EVERY input (each parse branch
raises on an attribute of the module `datetime` or the unbound name
`timezone`, and the handlers swallow the raise), so the routed path of a
record carrying a perfectly well-formed ISO-8601 `close_time` still gets the
sentinel bucket `unknown/unknown`. -/
theorem c5_time_bucket_never_derived :
    (∀ v, _dt_from_any v = none) ∧
    marketsBucket c5Rec = .ok (some "unknown", some "unknown") ∧
    eventsBucket c5Rec = .ok (some "unknown", some "unknown") := by
  refine ⟨?_, by rfl, by rfl⟩
  intro v
  cases v with
  | vNull => rfl
  | vInt n => rfl
  | vStr s =>
    show (if pyStrip s = "" then none
          else if isDateOnly (pyStrip s) then none else none) = (none : Option PyDateTime)
    split
    · rfl
    · split <;> rfl

/- C6: rollover table invariants. -/

theorem find?_pred_congr {α : Type} (p q : α → Bool) (l : List α) (h : ∀ a, p a = q a) :
    l.find? p = l.find? q := by
  induction l with
  | nil => rfl
  | cons a l ih =>
    have hpq := h a
    cases hq : q a with
    | true =>
      rw [List.find?_cons_of_pos l (by rw [hpq, hq]), List.find?_cons_of_pos l hq]
    | false =>
      rw [List.find?_cons_of_neg l (by simp [hpq, hq]),
          List.find?_cons_of_neg l (by simp [hq]), ih]

theorem find?_filter_ne (l : List (String × Int)) (k k2 : String) (h : k2 ≠ k) :
    (l.filter (fun p => p.1 ≠ k)).find? (fun p => p.1 = k2) =
      l.find? (fun p => p.1 = k2) := by
  rw [List.find?_filter]
  apply find?_pred_congr
  intro a
  by_cases hk2 : a.1 = k2
  · have hne : a.1 ≠ k := fun hc => h (by rw [← hk2, hc])
    simp [hk2, hne, h]
  · simp [hk2]

theorem getIdx_setIdx (t : RolloverTable) (k k2 : String) (v : Int) :
    (t.setIdx k v).getIdx k2 = if k2 = k then v else t.getIdx k2 := by
  unfold RolloverTable.setIdx RolloverTable.getIdx
  by_cases h : k2 = k
  · subst h
    simp [List.find?_cons_of_pos]
  · rw [if_neg h]
    rw [List.find?_cons_of_neg _ (by simp; exact fun hc => h hc.symm),
        find?_filter_ne t.entries k k2 h]

/-- All stored rollover indices are positive. -/
def AllPos (t : RolloverTable) : Prop := ∀ p ∈ t.entries, 1 ≤ p.2

theorem allPos_getIdx {t : RolloverTable} (h : AllPos t) (k : String) : 1 ≤ t.getIdx k := by
  match hf : t.entries.find? (fun p => p.1 = k) with
  | none => simp [RolloverTable.getIdx, hf]
  | some p =>
    have hm := h p (List.mem_of_find?_eq_some hf)
    simp [RolloverTable.getIdx, hf]
    omega

theorem allPos_bump {t : RolloverTable} (h : AllPos t) (kind scope : String) :
    AllPos (RepoRolloverTracker.bump t kind scope).2 := by
  intro p hp
  unfold RepoRolloverTracker.bump RolloverTable.setIdx at hp
  simp only [List.mem_cons] at hp
  cases hp with
  | inl he =>
    subst he
    have := allPos_getIdx h (rkey kind scope)
    omega
  | inr hm => exact h p (List.mem_of_mem_filter hm)

theorem reachable_allPos {t : RolloverTable} (h : RolloverReachable t) : AllPos t := by
  induction h with
  | init => intro p hp; cases hp
  | step kind scope _ ih => exact allPos_bump ih kind scope

/-- C6: the rollover index of a table defaults to 1 when absent; on every
table reachable in a run it is positive; `bump` returns and stores exactly
the old index plus one; no `bump` ever decreases any index; for non-Series
kind and scope the repo name is the prefix, kind, scope and the zero-padded
index; the singleton Series kind always maps to the fixed series repo,
independent of the table. -/
theorem c6_rollover_invariants :
    (∀ kind scope, RepoRolloverTracker.index ⟨[]⟩ kind scope = 1) ∧
    (∀ t, RolloverReachable t → ∀ kind scope, 1 ≤ RepoRolloverTracker.index t kind scope) ∧
    (∀ t kind scope,
        (RepoRolloverTracker.bump t kind scope).1 =
          RepoRolloverTracker.index t kind scope + 1 ∧
        RepoRolloverTracker.index (RepoRolloverTracker.bump t kind scope).2 kind scope =
          RepoRolloverTracker.index t kind scope + 1) ∧
    (∀ t kind scope kind2 scope2,
        RepoRolloverTracker.index t kind2 scope2 ≤
          RepoRolloverTracker.index (RepoRolloverTracker.bump t kind scope).2 kind2 scope2) ∧
    (∀ tg t kind scope, kind ≠ "Series" → scope ≠ "Series" →
        RepoRolloverTracker.repo tg t kind scope =
          tg.repoPrefix ++ "_" ++ kind ++ "_" ++ scope ++ "_" ++
            padThree (RepoRolloverTracker.index t kind scope)) ∧
    (∀ tg t t2 scope,
        RepoRolloverTracker.repo tg t "Series" scope = tg.series_repo ∧
        RepoRolloverTracker.repo tg t "Series" scope =
          RepoRolloverTracker.repo tg t2 "Series" scope) := by
  refine ⟨?_, ?_, ?_, ?_, ?_, ?_⟩
  · intro kind scope; rfl
  · intro t ht kind scope
    exact allPos_getIdx (reachable_allPos ht) (rkey kind scope)
  · intro t kind scope
    constructor
    · rfl
    · unfold RepoRolloverTracker.index RepoRolloverTracker.bump
      simp [getIdx_setIdx]
  · intro t kind scope kind2 scope2
    unfold RepoRolloverTracker.index RepoRolloverTracker.bump
    simp only
    rw [getIdx_setIdx]
    split
    · rename_i hk
      rw [hk]
      omega
    · exact le_refl _
  · intro tg t kind scope hk hs
    unfold RepoRolloverTracker.repo
    simp [hk, hs]
  · intro tg t t2 scope
    constructor <;> rfl

/-- The default targets constructed by `default_targets` (line 233). -/
def defaultTargets : Targets :=
  ⟨"statground", "Statground_Data_Kalshi_Series", "Statground_Data_Kalshi"⟩

/-- C6 witness: on the table reached by one bump of `(Events, 2026)` from
the fresh table, the index is positive and the repo name carries the bumped,
zero-padded index. -/
theorem c6_witness :
    1 ≤ RepoRolloverTracker.index
        (RepoRolloverTracker.bump ⟨[]⟩ "Events" "2026").2 "Events" "2026" ∧
    RepoRolloverTracker.repo defaultTargets
        (RepoRolloverTracker.bump ⟨[]⟩ "Events" "2026").2 "Events" "2026" =
      "Statground_Data_Kalshi_Events_2026_" ++
        padThree (RepoRolloverTracker.index
          (RepoRolloverTracker.bump ⟨[]⟩ "Events" "2026").2 "Events" "2026") := by
  constructor
  · exact c6_rollover_invariants.2.1 _
      (RolloverReachable.step "Events" "2026" RolloverReachable.init) "Events" "2026"
  · exact c6_rollover_invariants.2.2.2.2.1 defaultTargets _ "Events" "2026"
      (by decide) (by decide)

/- C2: rollover never triggers. -/

/-- One pass of the body of the `while True` loop in `yield_item`
(lines 863-867): `w.write_json(str(rel), obj)` then `w.maybe_flush(False)`.
The `except RolloverRequested` handler (lines 869-883) - the only call site
of `tracker.bump` in the whole file - would first evaluate `w.kind`, an
attribute `RepoWriter` never defines, so even entering the handler would
raise AttributeError; the handler is modelled by that first effect, and one
unrolling of the retry loop suffices because the rollover signal is never
produced. -/
def yield_item_once (w : RepoWriter) (rel : String) :
    Except PyExc (RepoWriter × List String) :=
  let w1 := w.write_json rel
  match w1.maybe_flush false with
  | .ok r => .ok r
  | .error .rolloverRequested => .error (.attributeError "kind")
  | .error e => .error e

/-- The `files_written` counter of a normal yield result. -/
def yieldFilesWritten : Except PyExc (RepoWriter × List String) → Option Nat
  | .ok (w, _) => some w.files_written
  | .error _ => none

theorem maybe_flush_files_written (w : RepoWriter) (force : Bool) (w2 : RepoWriter)
    (c : List String) (h : w.maybe_flush force = .ok (w2, c)) :
    w2.files_written = w.files_written := by
  unfold RepoWriter.maybe_flush at h
  split at h
  · injection h with h; injection h with h1 h2; rw [← h1]
  · split at h
    · injection h with h; injection h with h1 h2; rw [← h1]
    · injection h with h; injection h with h1 h2; rw [← h1]

theorem write_json_files_written (w : RepoWriter) (rel : String) :
    (w.write_json rel).files_written = w.files_written + 1 := rfl

/-- C2: even on a writer far past the configured item-count threshold, one
more routed record is written and `maybe_flush` completes normally - no
`RolloverRequested` is ever raised (the file contains no raise site for that
signal, never reads `MAX_FILES_PER_REPO` or `MAX_BYTES_PER_REPO`, and
`RepoWriter` does not even track a byte count) - so the rollover path that
would flush, advance the RolloverTable and persist CrawlState is
unreachable, and the writer keeps growing past the threshold. -/
theorem c2_no_rollover_past_threshold (w : RepoWriter) (rel : String)
    (h : MAX_FILES_PER_REPO < w.files_written) :
    (yield_item_once w rel).isOk = true ∧
    yieldFilesWritten (yield_item_once w rel) = some (w.files_written + 1) := by
  obtain ⟨⟨w2, c⟩, hf⟩ := maybe_flush_isOk (w.write_json rel) false
  have hw2 : w2.files_written = w.files_written + 1 := by
    rw [maybe_flush_files_written _ _ _ _ hf, write_json_files_written]
  constructor
  · simp only [yield_item_once]
    rw [hf]
    rfl
  · simp only [yield_item_once]
    rw [hf]
    show some w2.files_written = some (w.files_written + 1)
    rw [hw2]

def c2W : RepoWriter :=
  { owner := "statground", repo := "Statground_Data_Kalshi_Events_2026_001",
    local_path := ".work/repos/Statground_Data_Kalshi_Events_2026_001",
    files_written := 250001, last_flush_files := 245000, opened := true,
    pending_paths := ["events/open/unknown/unknown/ab/X.json"],
    has_counts_file := false, worktree_removed := false }

/-- C2 witness: a writer one item past `MAX_FILES_PER_REPO` still takes the
next record without any rollover signal. -/
theorem c2_witness :
    MAX_FILES_PER_REPO < c2W.files_written ∧
    (yield_item_once c2W "events/open/unknown/unknown/cd/Y.json").isOk = true ∧
    yieldFilesWritten (yield_item_once c2W "events/open/unknown/unknown/cd/Y.json") =
      some 250002 := by
  refine ⟨by decide,
    (c2_no_rollover_past_threshold c2W "events/open/unknown/unknown/cd/Y.json" (by decide)).1, ?_⟩
  have h := (c2_no_rollover_past_threshold c2W "events/open/unknown/unknown/cd/Y.json" (by decide)).2
  simpa using h

/- C10: close_all is not a WriterManager attribute. -/

/-- C10: `close_all` is not an attribute of `WriterManager` - line 765
dedents `def close_all(self):` to module level - so the `wm.close_all()` in
the `finally` block of `main` (line 910) raises AttributeError instead of
flushing and closing the pool; the stranded module-level function itself
would have emptied the pool as the spec requires. -/
theorem c10_close_all_attribute_error :
    (∀ m, wmCallNoArg m "close_all" = .error (.attributeError "close_all")) ∧
    "close_all" ∉ writerManagerClassAttrs ∧
    (∀ m m2, close_all m = .ok m2 → m2.writers = [] ∧ m2.open_order = []) := by
  refine ⟨fun m => rfl, by decide, ?_⟩
  intro m m2 h
  unfold close_all at h
  cases hc : closeAllAux m.open_order m with
  | ok m1 =>
    rw [hc] at h
    injection h with h
    rw [← h]
    exact ⟨rfl, rfl⟩
  | error e => rw [hc] at h; cases h

def c10W : RepoWriter :=
  { owner := "o", repo := "A", local_path := ".work/repos/A", files_written := 1,
    last_flush_files := 0, opened := true, pending_paths := ["f.json"],
    has_counts_file := false, worktree_removed := false }

def c10M : WriterManager :=
  { owner := "o", max_open_repos := 3, writers := [("A", c10W)], open_order := ["A"] }

def c10MAfter : WriterManager :=
  { owner := "o", max_open_repos := 3, writers := [], open_order := [] }

/-- C10 witness: on a concrete one-writer pool, the method call raises
AttributeError while the module-level function empties the pool. -/
theorem c10_witness :
    wmCallNoArg c10M "close_all" = .error (.attributeError "close_all") ∧
    close_all c10M = .ok c10MAfter ∧
    c10MAfter.writers = [] ∧ c10MAfter.open_order = [] := by
  refine ⟨c10_close_all_attribute_error.1 c10M, by decide, ?_, ?_⟩
  · exact (c10_close_all_attribute_error.2.2 c10M c10MAfter (by decide)).1
  · exact (c10_close_all_attribute_error.2.2 c10M c10MAfter (by decide)).2

/- C3: get on a not-yet-open repo. -/

/-- The pool state after the eviction loop of `get` has run (unchanged when
the loop itself raised). -/
def WriterManager.postEvict (m : WriterManager) : WriterManager :=
  match evictLoop m.max_open_repos m.open_order m.writers with
  | .ok (o2, ws2, _) => { m with open_order := o2, writers := ws2 }
  | .error _ => m

theorem evictLoop_isOk (maxOpen : Nat) (hmax : 1 ≤ maxOpen) (ord : List String)
    (ws : List (String × RepoWriter)) : ∃ r, evictLoop maxOpen ord ws = .ok r := by
  induction ord generalizing ws with
  | nil =>
    refine ⟨([], ws, []), ?_⟩
    unfold evictLoop
    rw [if_neg (by omega)]
  | cons r rest ih =>
    unfold evictLoop
    by_cases hc : maxOpen ≤ (r :: rest).length
    · rw [if_pos hc]
      cases hw : (ws.find? (fun p => p.1 = r)).map (fun p => p.2) with
      | some w =>
        obtain ⟨⟨wc, cc⟩, hcl⟩ := close_isOk w
        obtain ⟨⟨o2, ws2, ev⟩, hrec⟩ := ih (ws.filter (fun p => p.1 ≠ r))
        refine ⟨(o2, ws2, (r, wc) :: ev), ?_⟩
        simp only [hw, hcl, hrec]
      | none =>
        obtain ⟨rr, hrec⟩ := ih (ws.filter (fun p => p.1 ≠ r))
        refine ⟨rr, ?_⟩
        simp only [hw, hrec]
    · rw [if_neg hc]
      exact ⟨_, rfl⟩

theorem evictLoop_writers_subset (maxOpen : Nat) (ord : List String)
    (ws : List (String × RepoWriter)) (o2 : List String)
    (ws2 ev : List (String × RepoWriter))
    (h : evictLoop maxOpen ord ws = .ok (o2, ws2, ev)) : ∀ p ∈ ws2, p ∈ ws := by
  induction ord generalizing ws ev with
  | nil =>
    unfold evictLoop at h
    split at h
    · cases h
    · injection h with h
      injection h with h1 h
      injection h with h2 h3
      rw [← h2]
      exact fun p hp => hp
  | cons r rest ih =>
    unfold evictLoop at h
    split at h
    · cases hw : (ws.find? (fun p => p.1 = r)).map (fun p => p.2) with
      | some w =>
        rw [hw] at h
        dsimp only at h
        cases hcl : w.close with
        | ok rc =>
          obtain ⟨wc, cc⟩ := rc
          rw [hcl] at h
          dsimp only at h
          cases hrec : evictLoop maxOpen rest (ws.filter (fun p => p.1 ≠ r)) with
          | ok rr =>
            obtain ⟨o2b, ws2b, evb⟩ := rr
            rw [hrec] at h
            dsimp only at h
            injection h with h
            injection h with h1 h
            injection h with h2 h3
            rw [h1, h2] at hrec
            intro p hp
            exact List.mem_of_mem_filter (ih _ _ hrec p hp)
          | error e => rw [hrec] at h; cases h
        | error e => rw [hcl] at h; cases h
      | none =>
        rw [hw] at h
        dsimp only at h
        intro p hp
        exact List.mem_of_mem_filter (ih _ _ h p hp)
    · injection h with h
      injection h with h1 h
      injection h with h2 h3
      rw [← h2]
      exact fun p hp => hp

/-- C3: `get` on a repo that is not currently open never returns a writer:
after performing its evictions it evaluates the undefined name
`WORK_REPOS_DIR` (line 744) and raises NameError, and no writer for the repo
has been added to the pool. -/
theorem c3_get_raises_nameerror (m : WriterManager) (repo : String)
    (habs : m.findWriter repo = none) (hmax : 1 ≤ m.max_open_repos) :
    WriterManager.get m repo = .error (.nameError "WORK_REPOS_DIR", m.postEvict) ∧
    m.postEvict.findWriter repo = none := by
  obtain ⟨⟨o2, ws2, ev⟩, hev⟩ := evictLoop_isOk m.max_open_repos hmax m.open_order m.writers
  have hsub := evictLoop_writers_subset _ _ _ _ _ _ hev
  constructor
  · unfold WriterManager.get WriterManager.postEvict
    simp only [habs, hev]
  · unfold WriterManager.postEvict
    simp only [hev]
    unfold WriterManager.findWriter at habs ⊢
    have hn : List.find? (fun p => decide (p.1 = repo)) m.writers = none := by
      cases hfind : List.find? (fun p => decide (p.1 = repo)) m.writers with
      | none => rfl
      | some p => rw [hfind] at habs; simp at habs
    have hn2 : List.find? (fun p => decide (p.1 = repo)) ws2 = none := by
      rw [List.find?_eq_none] at hn ⊢
      exact fun x hx => hn x (hsub x hx)
    dsimp only
    rw [hn2]
    rfl

def c3M : WriterManager :=
  { owner := "statground", max_open_repos := 3, writers := [], open_order := [] }

/-- C3 witness: on the fresh pool, asking for any repo raises NameError and
leaves the pool without a writer for it. -/
theorem c3_witness :
    WriterManager.get c3M "Statground_Data_Kalshi_Events_2026_001" =
      .error (.nameError "WORK_REPOS_DIR", c3M.postEvict) ∧
    c3M.postEvict.findWriter "Statground_Data_Kalshi_Events_2026_001" = none :=
  c3_get_raises_nameerror c3M "Statground_Data_Kalshi_Events_2026_001" (by decide) (by decide)

/- C9: atomic checkpoint save. -/

theorem find?_assoc_filter_ne {β : Type} (l : List (String × β)) (k k2 : String)
    (h : k2 ≠ k) :
    (l.filter (fun p => p.1 ≠ k)).find? (fun p => p.1 = k2) =
      l.find? (fun p => p.1 = k2) := by
  rw [List.find?_filter]
  apply find?_pred_congr
  intro a
  by_cases hk2 : a.1 = k2
  · have hne : a.1 ≠ k := fun hc => h (by rw [← hk2, hc])
    simp [hk2, hne, h]
  · simp [hk2]

theorem fsGet_fsSet (fs : FS) (k k2 : String) (d : FileData) :
    fsGet (fsSet fs k d) k2 = if k2 = k then some d else fsGet fs k2 := by
  unfold fsSet fsGet
  by_cases h : k2 = k
  · subst h
    simp [List.find?_cons_of_pos]
  · rw [if_neg h]
    rw [List.find?_cons_of_neg _ (by simp; exact fun hc => h hc.symm),
        find?_assoc_filter_ne fs k k2 h]

theorem fsGet_fsRemove_ne (fs : FS) (k k2 : String) (h : k2 ≠ k) :
    fsGet (fsRemove fs k) k2 = fsGet fs k2 := by
  unfold fsRemove fsGet
  rw [find?_assoc_filter_ne fs k k2 h]

theorem tmp_path_ne (path : String) : path ++ ".tmp" ≠ path := by
  intro h
  have hlen := congrArg String.length h
  have h4 : (".tmp" : String).length = 4 := rfl
  rw [String.length_append, h4] at hlen
  omega

theorem atomic_write_json_get (fs : FS) (path : String) (doc : J) :
    fsGet (atomic_write_json fs path doc) path = some (.full doc) := by
  unfold atomic_write_json
  rw [fsGet_fsSet, if_pos rfl]

/-- C9: `atomic_write_json` writes the complete serialized document to
`<path>.tmp` and then renames the temp file over the target in one step: at
every observable state before the final rename the target content is
unchanged; the target is never an in-progress (partially written) file when
it was not one before; after completion the complete document is at the
target; and `load_state` after a completed `save_state` returns exactly the
persisted document (the state dict stamped with `last_success_utc`). -/
theorem c9_atomic_checkpoint_save (fs : FS) (path : String) (doc : J)
    (hclean : ∀ d, fsGet fs path ≠ some (.inProgress d)) :
    (path ++ ".tmp" ≠ path) ∧
    (∀ s ∈ (atomic_write_json_trace fs path doc).dropLast, fsGet s path = fsGet fs path) ∧
    (∀ s ∈ atomic_write_json_trace fs path doc, ∀ d, fsGet s path ≠ some (.inProgress d)) ∧
    fsGet (atomic_write_json fs path doc) path = some (.full doc) ∧
    (∀ st now, load_state (save_state fs st now) = some (savedStateDoc st now)) := by
  have htmp := tmp_path_ne path
  have hpt : path ≠ path ++ ".tmp" := fun h => htmp h.symm
  have hmid : ∀ d, fsGet (fsSet fs (path ++ ".tmp") d) path = fsGet fs path := by
    intro d
    rw [fsGet_fsSet, if_neg hpt]
  refine ⟨htmp, ?_, ?_, atomic_write_json_get fs path doc, ?_⟩
  · intro s hs
    simp only [atomic_write_json_trace, List.dropLast, List.mem_cons,
      List.not_mem_nil, or_false] at hs
    rcases hs with rfl | rfl | rfl
    · rfl
    · exact hmid _
    · exact hmid _
  · intro s hs
    simp only [atomic_write_json_trace, List.mem_cons, List.not_mem_nil, or_false] at hs
    rcases hs with rfl | rfl | rfl | rfl
    · exact hclean
    · intro d; rw [hmid]; exact hclean d
    · intro d; rw [hmid]; exact hclean d
    · intro d
      rw [fsGet_fsSet, if_pos rfl]
      simp
  · intro st now
    unfold load_state save_state
    rw [atomic_write_json_get]
    rfl

def c9Now : String := "2026-02-03T04:05:06+00:00"

/-- C9 witness: saving the default state document onto an empty store makes
the complete stamped document loadable. -/
theorem c9_witness :
    fsGet (atomic_write_json [] STATE_FILE (.jObj defaultState)) STATE_FILE =
      some (.full (.jObj defaultState)) ∧
    load_state (save_state [] defaultState c9Now) = some (savedStateDoc defaultState c9Now) := by
  have h := c9_atomic_checkpoint_save [] STATE_FILE (.jObj defaultState)
    (fun d hd => by simp [fsGet] at hd)
  exact ⟨h.2.2.2.1, h.2.2.2.2 defaultState c9Now⟩

/- C1 / C8: ledger invariants of the crawl loops. -/

theorem pipeYield_inv {σ : Type} (threshold : Nat) (led : Ledger σ) (x : Routed)
    (h : LedgerInv led) : LedgerInv (pipeYield threshold led x) := by
  intro y
  have hy := h y
  unfold pipeYield
  dsimp only
  split
  · simp only [List.mem_append, List.mem_singleton, List.mem_filter,
      decide_eq_true_eq]
    constructor
    · intro hl
      rcases hl with hl | hl
      · rcases hy.mp hl with hc | hp
        · exact Or.inl (Or.inl hc)
        · by_cases hr : y.repo = x.repo
          · exact Or.inl (Or.inr ⟨Or.inl hp, hr⟩)
          · exact Or.inr ⟨Or.inl hp, hr⟩
      · by_cases hr : y.repo = x.repo
        · exact Or.inl (Or.inr ⟨Or.inr hl, hr⟩)
        · exact Or.inr ⟨Or.inr hl, hr⟩
    · intro hr
      rcases hr with (hc | ⟨hp, _⟩) | ⟨hp, _⟩
      · exact Or.inl (hy.mpr (Or.inl hc))
      · rcases hp with hp | hp
        · exact Or.inl (hy.mpr (Or.inr hp))
        · exact Or.inr hp
      · rcases hp with hp | hp
        · exact Or.inl (hy.mpr (Or.inr hp))
        · exact Or.inr hp
  · simp only [List.mem_append, List.mem_singleton]
    constructor
    · intro hl
      rcases hl with hl | hl
      · rcases hy.mp hl with hc | hp
        · exact Or.inl hc
        · exact Or.inr (Or.inl hp)
      · exact Or.inr (Or.inr hl)
    · intro hr
      rcases hr with hc | hp | hx2
      · exact Or.inl (hy.mpr (Or.inl hc))
      · exact Or.inl (hy.mpr (Or.inr hp))
      · exact Or.inr hx2

theorem foldl_pipeYield_inv {σ : Type} (threshold : Nat) (items : List Routed)
    (led : Ledger σ) (h : LedgerInv led) :
    LedgerInv (items.foldl (pipeYield threshold) led) := by
  induction items generalizing led with
  | nil => exact h
  | cons a l ih => exact ih _ (pipeYield_inv threshold led a h)

theorem pipeSave_inv {σ : Type} {led : Ledger σ} (st : σ) (h : LedgerInv led) :
    LedgerInv (pipeSave led st) := h

theorem crawl_events_inv (threshold : Nat) (pages : List Page) :
    ∀ st led st1 led1,
      crawl_events_full threshold pages st led = some (st1, led1) →
      LedgerInv led → LedgerInv led1 := by
  induction pages with
  | nil => intro st led st1 led1 h _; cases h
  | cons p rest ih =>
    intro st led st1 led1 h hinv
    unfold crawl_events_full at h
    split at h
    · injection h with h
      injection h with h1 h2
      rw [← h2]
      exact pipeSave_inv _ hinv
    · dsimp only at h
      split at h
      · injection h with h
        injection h with h1 h2
        rw [← h2]
        exact pipeSave_inv _ (pipeSave_inv _ (foldl_pipeYield_inv _ _ _ hinv))
      · exact ih _ _ _ _ h (pipeSave_inv _ (foldl_pipeYield_inv _ _ _ hinv))

/-- C1 (amended): the per-page checkpoints inside the crawl loop are not
preceded by any flush, so the coverage guarantee the spec states holds only
at the run-final checkpoint: when the events phase completes, `main` calls
`wm.flush_all()` and then `save_state`, and at that final persisted state
every record yielded by the source during the crawl has been committed to
some sink. -/
theorem c1_final_checkpoint_covers (threshold : Nat) (pages : List Page)
    (st stF : EvState) (led ledF : Ledger EvState)
    (hinv : LedgerInv led)
    (h : mainEventsSuccess threshold pages st led = some (stF, ledF)) :
    (∀ x ∈ ledF.yielded, x ∈ ledF.committed) ∧
    ledF.saves.getLast? = some ⟨stF, ledF.committed, ledF.yielded⟩ := by
  unfold mainEventsSuccess at h
  cases hc : crawl_events_full threshold pages st led with
  | none => rw [hc] at h; cases h
  | some r =>
    obtain ⟨st1, led1⟩ := r
    rw [hc] at h
    dsimp only at h
    injection h with h
    injection h with h1 h2
    have hinv1 : LedgerInv led1 := crawl_events_inv threshold pages st led st1 led1 hc hinv
    rw [← h2, ← h1]
    constructor
    · intro x hx
      have hm := (hinv1 x).mp hx
      simp only [pipeSave, pipeFlushAll, List.mem_append]
      tauto
    · simp only [pipeSave, pipeFlushAll]
      exact List.getLast?_concat _

def c1Pages : List Page :=
  [⟨[⟨"R", "a"⟩, ⟨"R", "b"⟩, ⟨"R", "c"⟩], some "c1"⟩, ⟨[], none⟩]

def c1Abc : List Routed := [⟨"R", "a"⟩, ⟨"R", "b"⟩, ⟨"R", "c"⟩]

def c1LedF : Ledger EvState :=
  ⟨c1Abc, [], c1Abc,
   [⟨⟨some "c1", 1, 3⟩, [], c1Abc⟩, ⟨⟨none, 1, 3⟩, [], c1Abc⟩,
    ⟨⟨none, 1, 3⟩, c1Abc, c1Abc⟩]⟩

/-- C1 witness: a two-page run whose final state after `flush_all` plus
final save has every yielded record committed. -/
theorem c1_witness :
    (∀ x ∈ c1LedF.yielded, x ∈ c1LedF.committed) ∧
    c1LedF.saves.getLast? = some ⟨⟨none, 1, 3⟩, c1LedF.committed, c1LedF.yielded⟩ := by
  have hinv : LedgerInv (emptyLedger EvState) := by
    intro x
    simp [emptyLedger]
  exact c1_final_checkpoint_covers COMMIT_EVERY_FILES c1Pages ⟨none, 0, 0⟩ ⟨none, 1, 3⟩
    (emptyLedger EvState) c1LedF hinv (by decide)

def c1Run : EvState × Ledger EvState :=
  (crawl_events_full COMMIT_EVERY_FILES c1Pages ⟨none, 0, 0⟩ (emptyLedger EvState)).getD
    (⟨none, 0, 0⟩, emptyLedger EvState)

/-- C1 counterexample: with the default `COMMIT_EVERY_FILES = 5000`, the
crawl persists cursor `c1` after the first page although none of the three
records yielded strictly before that cursor has been committed - the first
persisted snapshot points past uncommitted data, and no flush precedes that
save. -/
theorem c1_counterexample :
    (crawl_events_full COMMIT_EVERY_FILES c1Pages ⟨none, 0, 0⟩ (emptyLedger EvState)).isSome =
      true ∧
    c1Run.2.saves.head? = some ⟨⟨some "c1", 1, 3⟩, [], c1Abc⟩ ∧
    ¬ CheckpointCoverage c1Run.2 := by
  refine ⟨by decide, by decide, ?_⟩
  intro hcov
  have hmem : (⟨⟨some "c1", 1, 3⟩, [], c1Abc⟩ : SaveEntry EvState) ∈ c1Run.2.saves := by
    decide
  have h := hcov _ hmem ⟨"R", "a"⟩ (by decide)
  exact List.not_mem_nil _ h

/-- C8 (amended): whenever the pagination loop of either crawl function
terminates - including when it ends on an empty page - the function
overwrites the stored cursor with None and persists that (lines 800 and
824-826), so the next run restarts pagination from the first page; the
stored cursor survives only in the intermediate per-page saves. -/
theorem c8_loop_end_clears_cursor :
    (∀ threshold pages st led st1 led1,
        crawl_events_full threshold pages st led = some ((st1 : EvState), (led1 : Ledger EvState)) →
        st1.events_cursor = none) ∧
    (∀ threshold now pages st led st1 led1,
        crawl_markets_full threshold now pages st led = some ((st1 : MkState), (led1 : Ledger MkState)) →
        st1.markets_cursor = none) := by
  constructor
  · intro threshold pages
    induction pages with
    | nil => intro st led st1 led1 h; cases h
    | cons p rest ih =>
      intro st led st1 led1 h
      unfold crawl_events_full at h
      split at h
      · injection h with h
        injection h with h1 h2
        rw [← h1]
      · dsimp only at h
        split at h
        · injection h with h
          injection h with h1 h2
          rw [← h1]
        · exact ih _ _ _ _ h
  · intro threshold now pages
    induction pages with
    | nil => intro st led st1 led1 h; cases h
    | cons p rest ih =>
      intro st led st1 led1 h
      unfold crawl_markets_full at h
      split at h
      · injection h with h
        injection h with h1 h2
        rw [← h1]
      · dsimp only at h
        split at h
        · injection h with h
          injection h with h1 h2
          rw [← h1]
        · exact ih _ _ _ _ h

def c8WLedE : Ledger EvState :=
  ⟨[⟨"R", "a"⟩], [⟨"R", "a"⟩], [],
   [⟨⟨none, 1, 1⟩, [], [⟨"R", "a"⟩]⟩, ⟨⟨none, 1, 1⟩, [], [⟨"R", "a"⟩]⟩]⟩

def c8WLedM : Ledger MkState :=
  ⟨[⟨"M", "m"⟩], [⟨"M", "m"⟩], [],
   [⟨⟨none, 1, 1, 5⟩, [], [⟨"M", "m"⟩]⟩, ⟨⟨none, 1, 1, 5⟩, [], [⟨"M", "m"⟩]⟩]⟩

/-- C8 witness: completed runs of both crawl functions, their final cursors
cleared. -/
theorem c8_witness :
    (⟨none, 1, 1⟩ : EvState).events_cursor = none ∧
    (⟨none, 1, 1, 5⟩ : MkState).markets_cursor = none := by
  constructor
  · exact c8_loop_end_clears_cursor.1 COMMIT_EVERY_FILES [⟨[⟨"R", "a"⟩], none⟩]
      ⟨none, 0, 0⟩ (emptyLedger EvState) ⟨none, 1, 1⟩ c8WLedE (by decide)
  · exact c8_loop_end_clears_cursor.2 COMMIT_EVERY_FILES 1700000000
      [⟨[(⟨"M", "m"⟩, some 5)], none⟩] ⟨none, 0, 0, 0⟩ (emptyLedger MkState)
      ⟨none, 1, 1, 5⟩ c8WLedM (by decide)

def c8St0 : EvState := ⟨some "c0", 4, 800⟩

/-- C8 counterexample: resuming with stored events cursor `c0`, a single
empty response ends the loop and the persisted final state carries
`events_cursor = None`: the stored cursor was silently reset, not
preserved. -/
theorem c8_counterexample :
    (crawl_events_full COMMIT_EVERY_FILES [⟨[], none⟩] c8St0 (emptyLedger EvState)).map
        (fun r => r.1.events_cursor) = some none ∧
    (crawl_events_full COMMIT_EVERY_FILES [⟨[], none⟩] c8St0 (emptyLedger EvState)).map
        (fun r => r.1.events_cursor) ≠ some (some "c0") := by
  exact ⟨by decide, by decide⟩

/- C7: pool bound and LRU eviction. -/

theorem maybe_flush_force_opened (w : RepoWriter) (hop : w.opened = true) :
    w.maybe_flush true =
      .ok ({ w with last_flush_files := w.files_written, pending_paths := [] },
        dedupKeepFirst (if w.has_counts_file then w.pending_paths ++ ["KALSHI_COUNTS.json"]
                        else w.pending_paths)) := by
  unfold RepoWriter.maybe_flush
  rw [hop]
  rfl

theorem close_opened (w : RepoWriter) (hop : w.opened = true) :
    w.close =
      .ok ({ w with last_flush_files := w.files_written, pending_paths := [],
                    worktree_removed := true },
        dedupKeepFirst (if w.has_counts_file then w.pending_paths ++ ["KALSHI_COUNTS.json"]
                        else w.pending_paths)) := by
  unfold RepoWriter.close
  rw [maybe_flush_force_opened w hop]

theorem evictLoop_under (maxOpen : Nat) (ord : List String)
    (ws : List (String × RepoWriter)) (h : ord.length < maxOpen) :
    evictLoop maxOpen ord ws = .ok (ord, ws, []) := by
  cases ord with
  | nil =>
    unfold evictLoop
    rw [if_neg (by omega)]
  | cons r rest =>
    unfold evictLoop
    rw [if_neg (by simp only [List.length_cons] at h ⊢; omega)]

theorem mem_keys_filter (ws : List (String × RepoWriter)) (r r2 : String) :
    r2 ∈ (ws.filter (fun p => p.1 ≠ r)).map Prod.fst ↔
      (r2 ∈ ws.map Prod.fst ∧ r2 ≠ r) := by
  simp only [List.mem_map, List.mem_filter, decide_eq_true_eq]
  constructor
  · rintro ⟨p, ⟨hpw, hpr⟩, hp2⟩
    exact ⟨⟨p, hpw, hp2⟩, hp2 ▸ hpr⟩
  · rintro ⟨⟨p, hpw, hp2⟩, hr2⟩
    exact ⟨p, ⟨hpw, hp2.symm ▸ hr2⟩, hp2⟩

/-- Full specification of the eviction loop of `get` on a well-formed pool:
the surviving order and writers stay well-formed and strictly under budget,
every evicted writer has been force-flushed and its worktree removed, and
when the loop starts exactly at capacity it evicts exactly the one
least-recently-used entry (the front of `open_order`). -/
theorem evictLoop_spec (maxOpen : Nat) (hmax : 1 ≤ maxOpen) :
    ∀ (ord : List String) (ws : List (String × RepoWriter))
      (o2 : List String) (ws2 ev : List (String × RepoWriter)),
      evictLoop maxOpen ord ws = .ok (o2, ws2, ev) →
      ord.Nodup →
      (∀ r, r ∈ ord ↔ r ∈ ws.map Prod.fst) →
      (ws.map Prod.fst).Nodup →
      (∀ p ∈ ws, (p : String × RepoWriter).2.opened = true) →
      o2.Nodup ∧
      (∀ r, r ∈ o2 ↔ r ∈ ws2.map Prod.fst) ∧
      (ws2.map Prod.fst).Nodup ∧
      (∀ p ∈ ws2, (p : String × RepoWriter).2.opened = true) ∧
      o2.length < maxOpen ∧
      (∀ e ∈ ev, e.2.pending_paths = [] ∧ e.2.worktree_removed = true) ∧
      (ord.length = maxOpen → ev.map Prod.fst = ord.take 1) := by
  intro ord
  induction ord with
  | nil =>
    intro ws o2 ws2 ev h hnd hcorr hknd hop
    unfold evictLoop at h
    rw [if_neg (by omega)] at h
    injection h with h
    injection h with h1 h
    injection h with h2 h3
    subst h1; subst h2; subst h3
    refine ⟨List.nodup_nil, hcorr, hknd, hop, ?_, ?_, ?_⟩
    · simp only [List.length_nil]
      omega
    · intro e he
      cases he
    · intro _
      rfl
  | cons r rest ih =>
    intro ws o2 ws2 ev h hnd hcorr hknd hop
    unfold evictLoop at h
    by_cases hc : maxOpen ≤ (r :: rest).length
    · rw [if_pos hc] at h
      have hrmem : r ∈ ws.map Prod.fst := (hcorr r).mp (List.mem_cons_self r rest)
      cases hf : ws.find? (fun p => p.1 = r) with
      | none =>
        exfalso
        obtain ⟨p, hpws, hp1⟩ := List.mem_map.mp hrmem
        exact (List.find?_eq_none.mp hf p hpws) (by simp [hp1])
      | some pr =>
        have hprmem : pr ∈ ws := List.mem_of_find?_eq_some hf
        have hopw : pr.2.opened = true := hop pr hprmem
        have hw : (ws.find? (fun p => p.1 = r)).map (fun p => p.2) = some pr.2 := by
          rw [hf]
          rfl
        rw [hw] at h
        dsimp only at h
        rw [close_opened pr.2 hopw] at h
        obtain ⟨hrnotin, hndrest⟩ := List.nodup_cons.mp hnd
        have hcorr2 : ∀ r2, r2 ∈ rest ↔
            r2 ∈ (ws.filter (fun p => p.1 ≠ r)).map Prod.fst := by
          intro r2
          rw [mem_keys_filter]
          constructor
          · intro h2
            refine ⟨(hcorr r2).mp (List.mem_cons_of_mem r h2), ?_⟩
            intro he
            exact hrnotin (he ▸ h2)
          · rintro ⟨hk, hne⟩
            rcases List.mem_cons.mp ((hcorr r2).mpr hk) with he | hm
            · exact absurd he hne
            · exact hm
        have hknd2 : ((ws.filter (fun p => p.1 ≠ r)).map Prod.fst).Nodup :=
          hknd.sublist ((List.filter_sublist ws).map Prod.fst)
        have hop2 : ∀ p ∈ ws.filter (fun p => p.1 ≠ r),
            (p : String × RepoWriter).2.opened = true :=
          fun p hp => hop p (List.mem_of_mem_filter hp)
        cases hrec : evictLoop maxOpen rest (ws.filter (fun p => p.1 ≠ r)) with
        | error e => rw [hrec] at h; cases h
        | ok rr =>
          obtain ⟨o2b, ws2b, evb⟩ := rr
          rw [hrec] at h
          dsimp only at h
          injection h with h
          injection h with h1 h
          injection h with h2 h3
          subst h1; subst h2
          obtain ⟨ho2nd, hcorr3, hknd3, hop3, hlt, hflush, _⟩ :=
            ih (ws.filter (fun p => p.1 ≠ r)) o2b ws2b evb hrec hndrest hcorr2 hknd2 hop2
          refine ⟨ho2nd, hcorr3, hknd3, hop3, hlt, ?_, ?_⟩
          · intro e he
            rw [← h3] at he
            rcases List.mem_cons.mp he with he | he
            · subst he
              exact ⟨rfl, rfl⟩
            · exact hflush e he
          · intro hl
            have hrl : rest.length < maxOpen := by
              simp only [List.length_cons] at hl
              omega
            rw [evictLoop_under maxOpen rest _ hrl] at hrec
            injection hrec with hrec
            injection hrec with hh1 hrec2
            injection hrec2 with hh2 hh3
            rw [← h3, ← hh3]
            rfl
    · rw [if_neg hc] at h
      injection h with h
      injection h with h1 h
      injection h with h2 h3
      subst h1; subst h2; subst h3
      refine ⟨hnd, hcorr, hknd, hop, ?_, ?_, ?_⟩
      · omega
      · intro e he
        cases he
      · intro hl
        exact absurd hl (by omega)

theorem findWriter_some_mem (m : WriterManager) (repo : String) (w0 : RepoWriter)
    (h : m.findWriter repo = some w0) : repo ∈ m.writers.map Prod.fst := by
  unfold WriterManager.findWriter at h
  cases hf : m.writers.find? (fun p => p.1 = repo) with
  | none => rw [hf] at h; cases h
  | some p =>
    have hp1 : p.1 = repo := by simpa using List.find?_some hf
    exact List.mem_map.mpr ⟨p, List.mem_of_find?_eq_some hf, hp1⟩

theorem findWriter_none_not_mem (m : WriterManager) (repo : String)
    (h : m.findWriter repo = none) : repo ∉ m.writers.map Prod.fst := by
  unfold WriterManager.findWriter at h
  intro hmem
  obtain ⟨p, hpw, hp1⟩ := List.mem_map.mp hmem
  cases hf : m.writers.find? (fun p => p.1 = repo) with
  | none => exact (List.find?_eq_none.mp hf p hpw) (by simp [hp1])
  | some q => rw [hf] at h; cases h

/-- Pool well-formedness: the LRU order has no duplicates and lists exactly
the keys of the writer dict, the dict has one writer per sink name, the pool
is within budget, and every pooled writer is open. -/
def WMInv (m : WriterManager) : Prop :=
  m.open_order.Nodup ∧
  (∀ r, r ∈ m.open_order ↔ r ∈ m.writers.map Prod.fst) ∧
  (m.writers.map Prod.fst).Nodup ∧
  m.open_order.length ≤ m.max_open_repos ∧
  (∀ p ∈ m.writers, (p : String × RepoWriter).2.opened = true)

/-- C7: on a well-formed pool, `get` keeps the pool well-formed and within
the `MAX_OPEN_REPOS` budget, never holds two writers for one sink name, and
a `get` for a sink not currently open when the pool is exactly at capacity
evicts exactly one writer - the least recently used, at the front of
`open_order` - force-flushing it (pending cleared) and discarding its
working copy before the new writer is opened. -/
theorem c7_pool_bound (m : WriterManager) (repo : String) (m2 : WriterManager)
    (w : RepoWriter) (ev : List (String × RepoWriter))
    (hmax : 1 ≤ m.max_open_repos) (hinv : WMInv m)
    (hget : m.getModelled repo = .ok (m2, w, ev)) :
    WMInv m2 ∧
    m2.open_order.length ≤ m.max_open_repos ∧
    (m2.writers.map Prod.fst).Nodup ∧
    (m.findWriter repo = none → m.open_order.length = m.max_open_repos →
      ev.map Prod.fst = m.open_order.take 1) ∧
    (∀ e ∈ ev, e.2.pending_paths = [] ∧ e.2.worktree_removed = true) := by
  obtain ⟨hnd, hcorr, hknd, hlen, hop⟩ := hinv
  unfold WriterManager.getModelled at hget
  cases hfind : m.findWriter repo with
  | some w0 =>
    rw [hfind] at hget
    dsimp only at hget
    injection hget with hget
    injection hget with h1 hget
    injection hget with h2 h3
    subst h1
    subst h3
    have hmem : repo ∈ m.open_order :=
      (hcorr repo).mpr (findWriter_some_mem m repo w0 hfind)
    have hctn : m.open_order.contains repo = true := List.elem_eq_true_of_mem hmem
    have h1le : 0 < m.open_order.length := List.length_pos_of_mem hmem
    have hnde : (m.open_order.erase repo).Nodup := hnd.erase repo
    have hnotin : repo ∉ m.open_order.erase repo := fun hin =>
      ((List.Nodup.mem_erase_iff hnd).mp hin).1 rfl
    have hordlen : (m.open_order.erase repo).length = m.open_order.length - 1 :=
      List.length_erase_of_mem hmem
    have hcorr2 : ∀ r2, r2 ∈ m.open_order.erase repo ++ [repo] ↔
        r2 ∈ m.writers.map Prod.fst := by
      intro r2
      rw [List.mem_append, List.mem_singleton, List.Nodup.mem_erase_iff hnd]
      constructor
      · intro hc2
        rcases hc2 with ⟨_, hin⟩ | heq
        · exact (hcorr r2).mp hin
        · exact heq ▸ findWriter_some_mem m repo w0 hfind
      · intro hk
        by_cases he : r2 = repo
        · exact Or.inr he
        · exact Or.inl ⟨he, (hcorr r2).mpr hk⟩
    refine ⟨⟨?_, ?_, hknd, ?_, hop⟩, ?_, hknd, ?_, ?_⟩
    · simp only [hctn, if_true]
      simp [List.nodup_append, hnde, hnotin]
    · intro r2
      simp only [hctn, if_true]
      exact hcorr2 r2
    · simp only [hctn, if_true, List.length_append, List.length_singleton, hordlen]
      omega
    · simp only [hctn, if_true, List.length_append, List.length_singleton, hordlen]
      omega
    · intro habs
      cases habs
    · intro e he
      cases he
  | none =>
    rw [hfind] at hget
    dsimp only at hget
    cases hev : evictLoop m.max_open_repos m.open_order m.writers with
    | error e => rw [hev] at hget; cases hget
    | ok rr =>
      obtain ⟨o2, ws2, evl⟩ := rr
      rw [hev] at hget
      dsimp only at hget
      injection hget with hget
      injection hget with h1 hget
      injection hget with h2 h3
      subst h1
      subst h3
      obtain ⟨ho2nd, hcorr2, hknd2, hop2, hlt, hflush, hcap⟩ :=
        evictLoop_spec m.max_open_repos hmax m.open_order m.writers o2 ws2 evl
          hev hnd hcorr hknd hop
      have hnotin_ws : repo ∉ m.writers.map Prod.fst := findWriter_none_not_mem m repo hfind
      have hsub := evictLoop_writers_subset _ _ _ _ _ _ hev
      have hnotin_ws2 : repo ∉ ws2.map Prod.fst := by
        intro hm
        obtain ⟨p, hp, hp1⟩ := List.mem_map.mp hm
        exact hnotin_ws (List.mem_map.mpr ⟨p, hsub p hp, hp1⟩)
      have hnotin_o2 : repo ∉ o2 := fun hm => hnotin_ws2 ((hcorr2 repo).mp hm)
      refine ⟨⟨?_, ?_, ?_, ?_, ?_⟩, ?_, ?_, ?_, hflush⟩
      · simp [List.nodup_append, ho2nd, hnotin_o2]
      · intro r2
        simp only [List.map_append, List.map_cons, List.map_nil, List.mem_append,
          List.mem_singleton]
        constructor
        · intro hc2
          rcases hc2 with hin | heq
          · exact Or.inl ((hcorr2 r2).mp hin)
          · exact Or.inr heq
        · intro hc2
          rcases hc2 with hin | heq
          · exact Or.inl ((hcorr2 r2).mpr hin)
          · exact Or.inr heq
      · simp only [List.map_append, List.map_cons, List.map_nil]
        simp [List.nodup_append, hknd2, hnotin_ws2]
      · simp only [List.length_append, List.length_singleton]
        omega
      · intro p hp
        rcases List.mem_append.mp hp with hin | hin
        · exact hop2 p hin
        · rw [List.mem_singleton.mp hin]
      · simp only [List.length_append, List.length_singleton]
        omega
      · simp only [List.map_append, List.map_cons, List.map_nil]
        simp [List.nodup_append, hknd2, hnotin_ws2]
      · intro _ hcap0
        exact hcap hcap0

def c7WA : RepoWriter :=
  { owner := "o", repo := "A", local_path := ".work/repos/A", files_written := 1,
    last_flush_files := 0, opened := true, pending_paths := ["f.json"],
    has_counts_file := false, worktree_removed := false }

def c7WAc : RepoWriter :=
  { owner := "o", repo := "A", local_path := ".work/repos/A", files_written := 1,
    last_flush_files := 1, opened := true, pending_paths := [],
    has_counts_file := false, worktree_removed := true }

def c7WB : RepoWriter :=
  { owner := "o", repo := "B", local_path := ".work/repos/B", files_written := 0,
    last_flush_files := 0, opened := true, pending_paths := [],
    has_counts_file := false, worktree_removed := false }

def c7M : WriterManager :=
  { owner := "o", max_open_repos := 1, writers := [("A", c7WA)], open_order := ["A"] }

def c7M2 : WriterManager :=
  { owner := "o", max_open_repos := 1, writers := [("B", c7WB)], open_order := ["B"] }

/-- C7 witness: a pool at capacity (budget 1, writer A open with one pending
record) receives a `get` for B: exactly A - the LRU front - is evicted,
force-flushed and its worktree removed, and the pool ends with only B. -/
theorem c7_witness :
    c7M2.open_order.length ≤ c7M.max_open_repos ∧
    ([("A", c7WAc)].map Prod.fst = c7M.open_order.take 1) ∧
    (∀ e ∈ [("A", c7WAc)],
      (e : String × RepoWriter).2.pending_paths = [] ∧ e.2.worktree_removed = true) ∧
    (c7M2.writers.map Prod.fst).Nodup := by
  have hinv : WMInv c7M :=
    ⟨by decide, fun r => Iff.rfl, by decide, by decide, by decide⟩
  have h := c7_pool_bound c7M "B" c7M2 c7WB [("A", c7WAc)] (by decide) hinv (by decide)
  exact ⟨h.2.1, h.2.2.2.1 (by decide) (by decide), h.2.2.2.2, h.2.2.1⟩
